import Mathlib

/-!
Shallow embedding of the HenkanKun batch image optimizer (src/src/App.tsx).

The program is a single React component.  Its core logic, embedded here:

* `processImage` (App.tsx lines 18-51): loads an item's `preview` into an
  `Image`, and in the `onload` callback resizes it to at most `MAX_SIZE`
  (1200) on the longer edge and re-encodes with
  `canvas.toDataURL("image/webp", 0.8)`.  The promise only ever resolves
  from `onload`; if the image never loads (a decode failure), the promise
  never settles.  We model the result as `Option EncodedImage`:
  `none` means the promise never settles.
* `handleStartOptimization` (lines 54-73): `Promise.all` over
  `images.map(processImage)`, then commits every item with
  `status := done`, `resultUrl` and `preview` set to the data URL, clears
  the processing flag and fires the completion alert.  `Promise.all`
  settles only when every constituent promise settles, so the whole run
  is `none` when any single item's decode never completes.
* `handleFileChange` (lines 76-87): appends one `idle` item per selected
  file, with a fresh random id and an object URL as `preview`.
* `downloadAllAsZip` (lines 89-103): iterates `images` in order, and for
  every item with `resultUrl` set adds a zip entry named
  `img.file.name.replace(/\.[^/.]+$/, "") + ".webp"` whose content is the
  base64 payload of the data URL.

JS numbers are modelled as `ℚ` (the resize arithmetic is exact there),
and the implicit truncation performed by the `canvas.width`/`canvas.height`
setters (WebIDL unsigned-long conversion, which truncates the
nonnegative float) as `Int.floor`.  Strings are modelled as `List Char`,
and the opaque pixel/byte payload of an image source as a `ℕ` token.
-/

namespace HenkanKun

/-- The status union of `ImageData` in App.tsx line 9:
`"idle" | "processing" | "done"`.  Note the source type has no failed
state. -/
inductive Status where
  | idle
  | processing
  | done
deriving DecidableEq, Repr

/-- An image source a DOM `Image` can be pointed at (an object URL or a
data URL): `loadable` records whether `onload` ever fires for it, `width`
and `height` are its intrinsic dimensions, `payload` is an opaque token
for its pixel content. -/
structure ImgSource where
  loadable : Bool
  width : ℚ
  height : ℚ
  payload : ℕ
deriving DecidableEq, Repr

/-- The part of the DOM `File` object the core logic reads: `file.name`
(App.tsx line 96). -/
structure FileInfo where
  name : List Char
deriving DecidableEq, Repr

/-- The WebP data URL produced by `canvas.toDataURL("image/webp", 0.8)`
(App.tsx line 48): canvas dimensions after the unsigned-long coercion,
the fixed quality argument, and the source pixel content it encodes. -/
structure EncodedImage where
  width : ℤ
  height : ℤ
  quality : ℚ
  payload : ℕ
deriving DecidableEq, Repr

/-- `ImageData` (App.tsx lines 5-11). -/
structure ImageItem where
  id : ℕ
  file : FileInfo
  preview : ImgSource
  status : Status
  resultUrl : Option EncodedImage
deriving DecidableEq, Repr

/-- `MAX_SIZE` (App.tsx line 27). -/
def MAX_SIZE : ℚ := 1200

/-- The resize computation of App.tsx lines 31-41, exactly the two nested
conditionals on `(width, height)`. -/
def resizeDims (width height : ℚ) : ℚ × ℚ :=
  if width > height then
    if width > MAX_SIZE then (MAX_SIZE, height * (MAX_SIZE / width)) else (width, height)
  else
    if height > MAX_SIZE then (width * (MAX_SIZE / height), MAX_SIZE) else (width, height)

/-- The guard of the outer conditional at App.tsx line 31: `true` iff the
resize goes through the `width > height` ("width is the long edge")
branch. -/
def takesWidthBranch (width height : ℚ) : Bool :=
  decide (width > height)

/-- `processImage` (App.tsx lines 18-51).  `none` models the promise that
never settles because `onload` never fires.  On load, the canvas is set
to the resized dimensions (truncated by the `canvas.width`/`canvas.height`
setters) and encoded at quality 0.8. -/
def processImage (imgData : ImageItem) : Option EncodedImage :=
  if imgData.preview.loadable then
    some { width := ⌊(resizeDims imgData.preview.width imgData.preview.height).1⌋
           height := ⌊(resizeDims imgData.preview.width imgData.preview.height).2⌋
           quality := 0.8
           payload := imgData.preview.payload }
  else
    none

/-- A data URL always loads, with the encoded image's dimensions and
content; used where App.tsx line 64 reassigns `preview := resultUrl`. -/
def dataUrlSource (e : EncodedImage) : ImgSource :=
  { loadable := true, width := (e.width : ℚ), height := (e.height : ℚ), payload := e.payload }

/-- One item's task inside the `Promise.all` of App.tsx lines 57-68:
await `processImage`, then build the updated record with `resultUrl`,
rewritten `preview` and `status := done`. -/
def optimizeItem (img : ImageItem) : Option ImageItem :=
  (processImage img).map fun resultUrl =>
    { img with resultUrl := some resultUrl
               preview := dataUrlSource resultUrl
               status := Status.done }

/-- `Promise.all`: settles with the list of values iff every constituent
promise settles. -/
def promiseAll {α : Type} : List (Option α) → Option (List α)
  | [] => some []
  | t :: ts => t.bind fun v => (promiseAll ts).map fun vs => v :: vs

/-- The observable outcome of a settled `handleStartOptimization` run:
the committed `images` state, the cleared processing flag (line 71), and
the completion alert of line 72. -/
structure RunOutcome where
  images : List ImageItem
  isProcessing : Bool
  alerted : Bool
deriving DecidableEq, Repr

/-- `handleStartOptimization` (App.tsx lines 54-73).  `none` models the
run in which the awaited `Promise.all` never settles: no state is
committed and the alert never fires. -/
def handleStartOptimization (images : List ImageItem) : Option RunOutcome :=
  (promiseAll (images.map optimizeItem)).map fun updatedImages =>
    { images := updatedImages, isProcessing := false, alerted := true }

/-- The `images` React state after a `handleStartOptimization` call:
updated when the run settles, untouched forever when it does not. -/
def finalImages (images : List ImageItem) : List ImageItem :=
  match handleStartOptimization images with
  | some outcome => outcome.images
  | none => images

/-- One selected file at intake: `id` stands for the random id of
App.tsx line 80, `objectUrl` for `URL.createObjectURL(file)`. -/
structure SelectedFile where
  id : ℕ
  file : FileInfo
  objectUrl : ImgSource
deriving DecidableEq, Repr

/-- `handleFileChange` (App.tsx lines 76-87): append one `idle` item per
selected file. -/
def handleFileChange (prev : List ImageItem) (files : List SelectedFile) : List ImageItem :=
  prev ++ files.map fun f =>
    { id := f.id, file := f.file, preview := f.objectUrl
      status := Status.idle, resultUrl := none }

/-- The character class `[^/.]` of the extension-stripping regex at
App.tsx line 96. -/
def extChar (c : Char) : Bool :=
  c ≠ '.' && c ≠ '/'

/-- `name.replace(/\.[^/.]+$/, "")` (App.tsx line 96).  The regex matches
iff the name ends in a dot followed by a nonempty run of characters that
are neither dots nor slashes; the match, when it exists, is that dot and
everything after it, and it is removed.  Walking the name from its end,
`takeWhile extChar` is the candidate extension run and the character
right after it (the head of `dropWhile extChar`) must be the dot. -/
def stripExt (s : List Char) : List Char :=
  match s.reverse.dropWhile extChar with
  | c :: rest =>
    if c = '.' ∧ s.reverse.takeWhile extChar ≠ [] then rest.reverse else s
  | [] => s

/-- The `".webp"` suffix appended at App.tsx line 96. -/
def webpExt : List Char :=
  ['.', 'w', 'e', 'b', 'p']

/-- One entry added by `zip.file(fileName, base64Data, ...)` (App.tsx
line 97); the content is the base64 payload of `resultUrl`, modelled by
the `EncodedImage` itself. -/
structure ZipEntry where
  fileName : List Char
  base64Data : EncodedImage
deriving DecidableEq, Repr

/-- `downloadAllAsZip` (App.tsx lines 89-103): iterate `images` in order
and add one entry per item whose `resultUrl` is set. -/
def downloadAllAsZip (images : List ImageItem) : List ZipEntry :=
  images.filterMap fun img =>
    img.resultUrl.map fun url =>
      { fileName := stripExt img.file.name ++ webpExt, base64Data := url }

/-- Archive contract as the spec states it (section 4.5): one entry per
item with `status = done`, named by stripping the extension and appending
the target extension, carrying the item's output bytes; other statuses
contribute nothing. -/
def spec_buildArchive (images : List ImageItem) : List ZipEntry :=
  images.filterMap fun img =>
    match img.status, img.resultUrl with
    | Status.done, some url =>
      some { fileName := stripExt img.file.name ++ webpExt, base64Data := url }
    | _, _ => none

/-- The data-model invariant of spec section 3: `outputBytes`
(`resultUrl`) is set iff `status = done`. -/
def statusResultInvariant (img : ImageItem) : Prop :=
  img.resultUrl.isSome = true ↔ img.status = Status.done

instance (img : ImageItem) : Decidable (statusResultInvariant img) := by
  unfold statusResultInvariant; infer_instance

/-- Replace item `k`'s decode by a failure: its source never loads. -/
def failDecode (img : ImageItem) : ImageItem :=
  { img with preview := { img.preview with loadable := false } }

/-- The batch with item `k`'s decode replaced by a failure (other items
untouched). -/
def injectDecodeFailure : ℕ → List ImageItem → List ImageItem
  | _, [] => []
  | 0, img :: rest => failDecode img :: rest
  | k + 1, img :: rest => img :: injectDecodeFailure k rest

/-! ## Concrete sample data

Items used by the closed witness and counterexample theorems below. -/

/-- A loadable 100x80 source. -/
def okSrc : ImgSource := { loadable := true, width := 100, height := 80, payload := 1 }

/-- A loadable 50x40 source. -/
def okSrcB : ImgSource := { loadable := true, width := 50, height := 40, payload := 2 }

/-- A source whose decode never completes (`onload` never fires). -/
def badSrc : ImgSource := { loadable := false, width := 100, height := 80, payload := 3 }

/-- A loadable 2000x1000 source (wider than tall, beyond `MAX_SIZE`). -/
def wideSrc : ImgSource := { loadable := true, width := 2000, height := 1000, payload := 4 }

/-- A loadable 800x600 source (within `MAX_SIZE` on both edges). -/
def smallSrc : ImgSource := { loadable := true, width := 800, height := 600, payload := 5 }

/-- A loadable degenerate 0x0 source. -/
def zeroSrc : ImgSource := { loadable := true, width := 0, height := 0, payload := 6 }

/-- A fresh idle item backed by `okSrc`. -/
def imgA : ImageItem :=
  { id := 1, file := { name := ['a', '.', 'p', 'n', 'g'] }, preview := okSrc
    status := Status.idle, resultUrl := none }

/-- A fresh idle item backed by `okSrcB`. -/
def imgB : ImageItem :=
  { id := 2, file := { name := ['b', '.', 'j', 'p', 'g'] }, preview := okSrcB
    status := Status.idle, resultUrl := none }

/-- A fresh idle item whose decode never completes. -/
def imgBad : ImageItem :=
  { id := 3, file := { name := ['c'] }, preview := badSrc
    status := Status.idle, resultUrl := none }

/-- A fresh idle item backed by `wideSrc`. -/
def imgWide : ImageItem :=
  { id := 4, file := { name := ['w'] }, preview := wideSrc
    status := Status.idle, resultUrl := none }

/-- A fresh idle item backed by `smallSrc`. -/
def imgSmall : ImageItem :=
  { id := 5, file := { name := ['s'] }, preview := smallSrc
    status := Status.idle, resultUrl := none }

/-- A fresh idle item backed by `zeroSrc`. -/
def imgZero : ImageItem :=
  { id := 6, file := { name := ['z'] }, preview := zeroSrc
    status := Status.idle, resultUrl := none }

/-- A sample encoded result. -/
def sampleEnc : EncodedImage := { width := 100, height := 80, quality := 0.8, payload := 1 }

/-- An item that has already been optimized (status `done`, result set,
preview rewritten to the data URL), as `handleStartOptimization` leaves
items. -/
def imgDone : ImageItem :=
  { id := 7, file := { name := ['d', '.', 'g', 'i', 'f'] }, preview := dataUrlSource sampleEnc
    status := Status.done, resultUrl := some sampleEnc }

/-- A sample file selection for intake. -/
def sampleFile : SelectedFile := { id := 9, file := { name := ['e'] }, objectUrl := okSrc }

/-! ## Helper lemmas -/

/-- `Promise.all` never settles when one constituent promise never
settles. -/
theorem promiseAll_of_none_mem {α : Type} :
    ∀ (tasks : List (Option α)), none ∈ tasks → promiseAll tasks = none := by
  intro tasks h
  induction tasks with
  | nil => cases h
  | cons t ts ih =>
    cases h with
    | head => rfl
    | tail _ hmem =>
      cases t with
      | none => rfl
      | some v => simp [promiseAll, ih hmem]

/-- `Promise.all` settles when every constituent promise settles. -/
theorem promiseAll_isSome {α : Type} :
    ∀ (tasks : List (Option α)), (∀ t ∈ tasks, t.isSome = true) →
      (promiseAll tasks).isSome = true := by
  intro tasks h
  induction tasks with
  | nil => rfl
  | cons t ts ih =>
    have ht : t.isSome = true := h t (List.mem_cons_self t ts)
    have hts := ih fun u hu => h u (List.mem_cons_of_mem t hu)
    cases t with
    | none => simp at ht
    | some v =>
      cases hpa : promiseAll ts with
      | none => rw [hpa] at hts; simp at hts
      | some vs => simp [promiseAll, hpa]

/-- Every value delivered by a settled `Promise.all` was delivered by one
of the constituent promises. -/
theorem mem_of_promiseAll_some {α : Type} :
    ∀ (tasks : List (Option α)) (out : List α), promiseAll tasks = some out →
      ∀ b ∈ out, some b ∈ tasks := by
  intro tasks
  induction tasks with
  | nil =>
    intro out h b hb
    simp [promiseAll] at h
    subst h; cases hb
  | cons t ts ih =>
    intro out h b hb
    cases t with
    | none => simp [promiseAll] at h
    | some v =>
      cases hpa : promiseAll ts with
      | none => simp [promiseAll, hpa] at h
      | some vs =>
        simp [promiseAll, hpa] at h
        subst h
        cases hb with
        | head => exact List.mem_cons_self _ _
        | tail _ htail => exact List.mem_cons_of_mem _ (ih vs hpa b htail)

/-- On a loadable preview, `processImage` resolves with the resized,
truncated canvas encoded at quality 0.8. -/
theorem processImage_of_loadable (img : ImageItem) (h : img.preview.loadable = true) :
    processImage img =
      some { width := ⌊(resizeDims img.preview.width img.preview.height).1⌋
             height := ⌊(resizeDims img.preview.width img.preview.height).2⌋
             quality := 0.8
             payload := img.preview.payload } := by
  simp [processImage, h]

/-- On an unloadable preview, `processImage` never settles. -/
theorem processImage_of_unloadable (img : ImageItem) (h : img.preview.loadable = false) :
    processImage img = none := by
  simp [processImage, h]

/-- An item whose decode never completes makes its whole per-item task
never settle. -/
theorem optimizeItem_of_unloadable (img : ImageItem) (h : img.preview.loadable = false) :
    optimizeItem img = none := by
  simp [optimizeItem, processImage_of_unloadable img h]

/-- The per-item task settles when the preview loads. -/
theorem optimizeItem_isSome (img : ImageItem) (h : img.preview.loadable = true) :
    (optimizeItem img).isSome = true := by
  simp [optimizeItem, processImage_of_loadable img h]

/-- Whenever a per-item task settles, the delivered item is `done` and
carries a result. -/
theorem optimizeItem_some_done {img b : ImageItem} (h : optimizeItem img = some b) :
    b.status = Status.done ∧ b.resultUrl.isSome = true := by
  unfold optimizeItem at h
  cases hp : processImage img with
  | none => rw [hp] at h; simp at h
  | some e =>
    rw [hp] at h
    simp only [Option.map_some'] at h
    obtain rfl := Option.some.inj h
    exact ⟨rfl, rfl⟩

/-- A batch containing an item whose decode never completes makes the
whole orchestrator run never settle. -/
theorem run_none_of_unloadable (images : List ImageItem)
    (h : ∃ img ∈ images, img.preview.loadable = false) :
    handleStartOptimization images = none := by
  obtain ⟨img, hmem, hl⟩ := h
  have hnone : none ∈ images.map optimizeItem :=
    List.mem_map.mpr ⟨img, hmem, optimizeItem_of_unloadable img hl⟩
  unfold handleStartOptimization
  rw [promiseAll_of_none_mem _ hnone]
  rfl

/-- When every item's decode completes, the orchestrator run settles. -/
theorem run_some_of_loadable (images : List ImageItem)
    (h : ∀ img ∈ images, img.preview.loadable = true) :
    ∃ o, handleStartOptimization images = some o := by
  have : (promiseAll (images.map optimizeItem)).isSome = true := by
    apply promiseAll_isSome
    intro t ht
    obtain ⟨img, hmem, rfl⟩ := List.mem_map.mp ht
    exact optimizeItem_isSome img (h img hmem)
  obtain ⟨out, hout⟩ := Option.isSome_iff_exists.mp this
  exact ⟨_, by rw [handleStartOptimization, hout]; rfl⟩

/-- A settled orchestrator run has fired the alert, cleared the
processing flag, and left every committed item `done` with a result. -/
theorem run_all_done {images : List ImageItem} {o : RunOutcome}
    (h : handleStartOptimization images = some o) :
    o.alerted = true ∧ o.isProcessing = false ∧
      ∀ img ∈ o.images, img.status = Status.done ∧ img.resultUrl.isSome = true := by
  unfold handleStartOptimization at h
  cases hpa : promiseAll (images.map optimizeItem) with
  | none => rw [hpa] at h; simp at h
  | some out =>
    rw [hpa] at h
    simp only [Option.map_some'] at h
    obtain rfl := Option.some.inj h
    refine ⟨rfl, rfl, ?_⟩
    intro img hmem
    have hmem' : img ∈ out := hmem
    have : some img ∈ images.map optimizeItem :=
      mem_of_promiseAll_some _ out hpa img hmem'
    obtain ⟨src, _, heq⟩ := List.mem_map.mp this
    exact optimizeItem_some_done heq

/-- Dimensions both within `MAX_SIZE` pass through the resize untouched
(both inner guards are false). -/
theorem resizeDims_small {w h : ℚ} (hw : w ≤ MAX_SIZE) (hh : h ≤ MAX_SIZE) :
    resizeDims w h = (w, h) := by
  unfold resizeDims
  split_ifs with h1 h2 h3
  · exact absurd h2 (not_lt.mpr hw)
  · rfl
  · exact absurd h3 (not_lt.mpr hh)
  · rfl

/-- A strictly wider-than-tall, over-limit input takes the width branch:
width clamps to `MAX_SIZE`, height scales by `MAX_SIZE / width`. -/
theorem resizeDims_wide {w h : ℚ} (h1 : w > h) (h2 : w > MAX_SIZE) :
    resizeDims w h = (MAX_SIZE, h * (MAX_SIZE / w)) := by
  unfold resizeDims
  rw [if_pos h1, if_pos h2]

/-- A square over-limit input falls into the `else` (height) branch and
comes out exactly `MAX_SIZE` by `MAX_SIZE`. -/
theorem resizeDims_square {w : ℚ} (hw : w > MAX_SIZE) :
    resizeDims w w = (MAX_SIZE, MAX_SIZE) := by
  unfold resizeDims
  rw [if_neg (lt_irrefl w), if_pos hw]
  have hne : w ≠ 0 := by
    have : (0 : ℚ) < MAX_SIZE := by norm_num [MAX_SIZE]
    exact ne_of_gt (lt_trans this hw)
  rw [mul_comm, div_mul_cancel₀ _ hne]

/-- Injecting a decode failure at an in-range index puts an item whose
decode never completes into the batch. -/
theorem inject_has_unloadable :
    ∀ (k : ℕ) (images : List ImageItem), k < images.length →
      ∃ img ∈ injectDecodeFailure k images, img.preview.loadable = false := by
  intro k
  induction k with
  | zero =>
    intro images hk
    cases images with
    | nil => simp at hk
    | cons img rest =>
      exact ⟨failDecode img, List.mem_cons_self _ _, rfl⟩
  | succ k ih =>
    intro images hk
    cases images with
    | nil => simp at hk
    | cons img rest =>
      have hk' : k < rest.length := by simpa using hk
      obtain ⟨b, hb, hbl⟩ := ih rest hk'
      exact ⟨b, List.mem_cons_of_mem _ hb, hbl⟩

/-- The head of a `dropWhile` residue fails the predicate and belongs to
the original list. -/
theorem dropWhile_head_spec {α : Type} (p : α → Bool) :
    ∀ (l : List α) {c : α} {rest : List α}, l.dropWhile p = c :: rest →
      p c = false ∧ c ∈ l := by
  intro l
  induction l with
  | nil => intro c rest h; simp [List.dropWhile] at h
  | cons a l ih =>
    intro c rest h
    by_cases hp : p a
    · rw [List.dropWhile_cons_of_pos hp] at h
      obtain ⟨h1, h2⟩ := ih h
      exact ⟨h1, List.mem_cons_of_mem _ h2⟩
    · rw [List.dropWhile_cons_of_neg hp] at h
      obtain ⟨rfl, -⟩ := List.cons.inj h
      exact ⟨Bool.eq_false_iff.mpr hp, List.mem_cons_self _ _⟩

/-- `dropWhile` skips over a fully satisfying prefix. -/
theorem dropWhile_append_of_all {α : Type} (p : α → Bool) :
    ∀ (l1 l2 : List α), (∀ c ∈ l1, p c = true) →
      (l1 ++ l2).dropWhile p = l2.dropWhile p := by
  intro l1 l2 h
  induction l1 with
  | nil => rfl
  | cons a l ih =>
    rw [List.cons_append, List.dropWhile_cons_of_pos (h a (List.mem_cons_self a l))]
    exact ih fun c hc => h c (List.mem_cons_of_mem a hc)

/-- `takeWhile` keeps a fully satisfying prefix. -/
theorem takeWhile_append_of_all {α : Type} (p : α → Bool) :
    ∀ (l1 l2 : List α), (∀ c ∈ l1, p c = true) →
      (l1 ++ l2).takeWhile p = l1 ++ l2.takeWhile p := by
  intro l1 l2 h
  induction l1 with
  | nil => rfl
  | cons a l ih =>
    rw [List.cons_append, List.takeWhile_cons_of_pos (h a (List.mem_cons_self a l))]
    rw [List.cons_append, ih fun c hc => h c (List.mem_cons_of_mem a hc)]

/-- The stripping regex does not match a name without any dot, so the
name is left unchanged. -/
theorem stripExt_of_no_dot (name : List Char) (hname : ∀ c ∈ name, c ≠ '.') :
    stripExt name = name := by
  unfold stripExt
  cases hd : name.reverse.dropWhile extChar with
  | nil => rfl
  | cons c rest =>
    obtain ⟨hc, hcmem⟩ := dropWhile_head_spec extChar name.reverse hd
    have hcname : c ∈ name := List.mem_reverse.mp hcmem
    have hcdot : c ≠ '.' := hname c hcname
    show (if c = '.' ∧ List.takeWhile extChar name.reverse ≠ [] then rest.reverse else name)
        = name
    rw [if_neg]
    intro hcontra
    exact hcdot hcontra.1

/-- A name that is one leading dot followed by a nonempty dot-free,
slash-free run is stripped in its entirety. -/
theorem stripExt_dotfile (rest : List Char) (hne : rest ≠ [])
    (hs : ∀ c ∈ rest, c ≠ '.' ∧ c ≠ '/') :
    stripExt ('.' :: rest) = [] := by
  have hall : ∀ c ∈ rest.reverse, extChar c = true := by
    intro c hc
    have := hs c (List.mem_reverse.mp hc)
    simp [extChar, this.1, this.2]
  have hrev : ('.' :: rest).reverse = rest.reverse ++ ['.'] := by
    simp
  have hdrop : ('.' :: rest).reverse.dropWhile extChar = ['.'] := by
    rw [hrev, dropWhile_append_of_all extChar _ _ hall]
    simp [List.dropWhile, extChar]
  have htake : ('.' :: rest).reverse.takeWhile extChar = rest.reverse := by
    rw [hrev, takeWhile_append_of_all extChar _ _ hall]
    simp [List.takeWhile, extChar]
  unfold stripExt
  rw [hdrop]
  show (if ('.' : Char) = '.' ∧ List.takeWhile extChar ('.' :: rest).reverse ≠ []
      then List.reverse [] else '.' :: rest) = []
  rw [if_pos]
  · rfl
  · refine ⟨rfl, ?_⟩
    rw [htake]
    simpa using hne

/-! ## Claim theorems -/

/-- Claim C1, corrected.  The claim states that on any stage failure the
orchestrator sets the item's status to `failed`, records the error, and
continues so the batch still completes.  The reference code cannot do
this: `Status` has no failed state, `processImage` only resolves from
`onload`, and `Promise.all` therefore never settles when one item's
decode fails.  Corrected statement: a batch containing an item whose
decode fails makes `handleStartOptimization` never settle — no status is
updated anywhere and the batch never reaches completion. -/
theorem orchestrator_failure_hangs_batch (images : List ImageItem)
    (h : ∃ img ∈ images, img.preview.loadable = false) :
    handleStartOptimization images = none ∧ finalImages images = images := by
  have hrun := run_none_of_unloadable images h
  refine ⟨hrun, ?_⟩
  unfold finalImages
  rw [hrun]

/-- Counterexample to claim C1 as stated: the two-item batch whose first
item's decode fails never reaches completion (`handleStartOptimization`
never settles) and the healthy second item is never processed — the
state is left exactly as it was, with no `failed` status recorded
anywhere. -/
theorem batch_never_completes_after_failure_cex :
    handleStartOptimization [imgBad, imgA] = none ∧
      finalImages [imgBad, imgA] = [imgBad, imgA] := by
  decide

/-- Witness for `orchestrator_failure_hangs_batch` at the concrete batch
`[imgBad, imgA]`. -/
theorem orchestrator_failure_hangs_batch_witness :
    (∃ img ∈ [imgBad, imgA], img.preview.loadable = false) ∧
      (handleStartOptimization [imgBad, imgA] = none ∧
        finalImages [imgBad, imgA] = [imgBad, imgA]) :=
  ⟨by decide, orchestrator_failure_hangs_batch [imgBad, imgA] (by decide)⟩

/-- Claim C2, corrected.  The claim states two-run independence: failing
item K's decode leaves every other item's terminal status and output
unchanged.  In the reference, the single `Promise.all` couples all
items: the corrected statement is that over a fully decodable batch the
plain run settles, while the run with a failure injected at any in-range
index never settles, so every sibling item also loses its committed
terminal status and output. -/
theorem injected_failure_hangs_whole_batch (images : List ImageItem) (k : ℕ)
    (hk : k < images.length)
    (hall : ∀ img ∈ images, img.preview.loadable = true) :
    (∃ o, handleStartOptimization images = some o) ∧
      handleStartOptimization (injectDecodeFailure k images) = none ∧
      finalImages (injectDecodeFailure k images) = injectDecodeFailure k images := by
  have hnone := run_none_of_unloadable _ (inject_has_unloadable k images hk)
  refine ⟨run_some_of_loadable images hall, hnone, ?_⟩
  unfold finalImages
  rw [hnone]

/-- Counterexample to claim C2 as stated: in the batch `[imgA, imgB]`
with a decode failure injected at index 0, item 1's terminal status and
output both differ from the uninjected run (`done` with a result versus
stuck at `idle` with none). -/
theorem sibling_outcome_changed_by_injection_cex :
    ((finalImages [imgA, imgB])[1]?).map ImageItem.status
        ≠ ((finalImages (injectDecodeFailure 0 [imgA, imgB]))[1]?).map ImageItem.status ∧
      ((finalImages [imgA, imgB])[1]?).map ImageItem.resultUrl
        ≠ ((finalImages (injectDecodeFailure 0 [imgA, imgB]))[1]?).map ImageItem.resultUrl := by
  decide

/-- Witness for `injected_failure_hangs_whole_batch` at the concrete
batch `[imgA, imgB]` and index 0. -/
theorem injected_failure_hangs_whole_batch_witness :
    (0 < ([imgA, imgB] : List ImageItem).length ∧
        ∀ img ∈ ([imgA, imgB] : List ImageItem), img.preview.loadable = true) ∧
      ((∃ o, handleStartOptimization [imgA, imgB] = some o) ∧
        handleStartOptimization (injectDecodeFailure 0 [imgA, imgB]) = none ∧
        finalImages (injectDecodeFailure 0 [imgA, imgB]) = injectDecodeFailure 0 [imgA, imgB]) :=
  ⟨⟨by decide, by decide⟩,
   injected_failure_hangs_whole_batch [imgA, imgB] 0 (by decide) (by decide)⟩

/-- Claim C3, confirmed.  Under the data-model invariant (`resultUrl`
set iff `status = done`, spec section 3), the archive built by
`downloadAllAsZip` equals the spec's archive: exactly one entry per
`done` item, in batch insertion order (both sides are a `filterMap` over
the batch), named by stripping the final extension and appending
`.webp`, carrying the item's output; items in any other status
contribute no entry. -/
theorem archive_matches_done_items (images : List ImageItem)
    (hinv : ∀ img ∈ images, statusResultInvariant img) :
    downloadAllAsZip images = spec_buildArchive images := by
  unfold downloadAllAsZip spec_buildArchive
  apply List.filterMap_congr
  intro img hmem
  have hi := hinv img hmem
  cases hres : img.resultUrl with
  | none =>
    have : img.status ≠ Status.done := by
      intro hdone
      have := hi.mpr hdone
      rw [hres] at this
      simp at this
    cases hst : img.status <;> simp_all
  | some url =>
    have hdone : img.status = Status.done := hi.mp (by rw [hres]; rfl)
    rw [hdone]
    simp

/-- Witness for `archive_matches_done_items` on a concrete batch mixing
a `done` item with a fresh one. -/
theorem archive_matches_done_items_witness :
    (∀ img ∈ [imgDone, imgA], statusResultInvariant img) ∧
      downloadAllAsZip [imgDone, imgA] = spec_buildArchive [imgDone, imgA] :=
  ⟨by decide, archive_matches_done_items [imgDone, imgA] (by decide)⟩

/-- Claim C4, confirmed.  For a loadable bitmap with `W > H` and
`W > MAX_SIZE`, the pipeline outputs width exactly 1200 and a height
within one unit below the exact aspect-preserving value
`H * (MAX_SIZE / W)` (the canvas setter truncates, which lies within the
claim's one-unit-per-dimension tolerance of the rounded value). -/
theorem resize_wide_output (img : ImageItem)
    (hl : img.preview.loadable = true)
    (hwh : img.preview.width > img.preview.height)
    (hmax : img.preview.width > MAX_SIZE) :
    ∃ e, processImage img = some e ∧ e.width = 1200 ∧
      (e.height : ℚ) ≤ img.preview.height * (MAX_SIZE / img.preview.width) ∧
      img.preview.height * (MAX_SIZE / img.preview.width) - 1 < (e.height : ℚ) := by
  refine ⟨_, processImage_of_loadable img hl, ?_, ?_, ?_⟩
  · show ⌊(resizeDims img.preview.width img.preview.height).1⌋ = 1200
    rw [resizeDims_wide hwh hmax]
    norm_num [MAX_SIZE]
  · show ((⌊(resizeDims img.preview.width img.preview.height).2⌋ : ℤ) : ℚ) ≤ _
    rw [resizeDims_wide hwh hmax]
    exact Int.floor_le _
  · show _ < ((⌊(resizeDims img.preview.width img.preview.height).2⌋ : ℤ) : ℚ)
    rw [resizeDims_wide hwh hmax]
    exact Int.sub_one_lt_floor _

/-- Witness for `resize_wide_output` at the concrete 2000x1000 item. -/
theorem resize_wide_output_witness :
    (imgWide.preview.loadable = true ∧
        imgWide.preview.width > imgWide.preview.height ∧
        imgWide.preview.width > MAX_SIZE) ∧
      (∃ e, processImage imgWide = some e ∧ e.width = 1200 ∧
        (e.height : ℚ) ≤ imgWide.preview.height * (MAX_SIZE / imgWide.preview.width) ∧
        imgWide.preview.height * (MAX_SIZE / imgWide.preview.width) - 1 < (e.height : ℚ)) :=
  ⟨⟨by decide, by decide, by decide⟩,
   resize_wide_output imgWide (by decide) (by decide) (by decide)⟩

/-- Claim C5, confirmed.  A loadable bitmap with natural dimensions both
at most `MAX_SIZE` passes through the pipeline with its dimensions
unchanged: no upscaling, the output is exactly `W` by `H`. -/
theorem resize_small_identity (img : ImageItem) (w h : ℕ)
    (hl : img.preview.loadable = true)
    (hw : img.preview.width = (w : ℚ)) (hh : img.preview.height = (h : ℚ))
    (hwm : (w : ℚ) ≤ MAX_SIZE) (hhm : (h : ℚ) ≤ MAX_SIZE) :
    processImage img =
      some { width := (w : ℤ), height := (h : ℤ), quality := 0.8,
             payload := img.preview.payload } := by
  rw [processImage_of_loadable img hl, hw, hh, resizeDims_small hwm hhm]
  simp

/-- Witness for `resize_small_identity` at the concrete 800x600 item. -/
theorem resize_small_identity_witness :
    (imgSmall.preview.loadable = true ∧
        imgSmall.preview.width = ((800 : ℕ) : ℚ) ∧
        imgSmall.preview.height = ((600 : ℕ) : ℚ) ∧
        ((800 : ℕ) : ℚ) ≤ MAX_SIZE ∧ ((600 : ℕ) : ℚ) ≤ MAX_SIZE) ∧
      processImage imgSmall =
        some { width := ((800 : ℕ) : ℤ), height := ((600 : ℕ) : ℤ), quality := 0.8,
               payload := imgSmall.preview.payload } :=
  ⟨⟨by decide, by decide, by decide, by decide, by decide⟩,
   resize_small_identity imgSmall 800 600 (by decide) (by decide) (by decide) (by decide)
     (by decide)⟩

/-- Claim C6, corrected.  The claim (and spec tie-break rule) says a
square over-limit input is scaled via the width-is-the-long-edge branch.
The source guard at line 31 is the strict `width > height`, which a
square fails, so it is scaled via the `else` (height) branch instead;
the output width is still exactly `MAX_SIZE`, since scaling a square by
its height also clamps its width. -/
theorem square_scaled_via_height_branch (w : ℚ) (hw : w > MAX_SIZE) :
    takesWidthBranch w w = false ∧ resizeDims w w = (MAX_SIZE, MAX_SIZE) := by
  constructor
  · rw [takesWidthBranch]
    exact decide_eq_false (lt_irrefl w)
  · exact resizeDims_square hw

/-- Counterexample to claim C6 as stated: the square 2000x2000 input is
over the limit yet does not take the width branch. -/
theorem square_width_branch_cex :
    (2000 : ℚ) > MAX_SIZE ∧ takesWidthBranch 2000 2000 = false := by
  decide

/-- Witness for `square_scaled_via_height_branch` at width 2000. -/
theorem square_scaled_via_height_branch_witness :
    (2000 : ℚ) > MAX_SIZE ∧
      (takesWidthBranch 2000 2000 = false ∧
        resizeDims 2000 2000 = (MAX_SIZE, MAX_SIZE)) :=
  ⟨by decide, square_scaled_via_height_branch 2000 (by decide)⟩

/-- Claim C7, corrected.  The claim says zero or negative dimensions
make the resizer fail with `InvalidDimensionsError`.  The source has no
dimension validation and no such error: a loadable input with
nonpositive width and height fails both resize guards, passes through
unchanged, and the pipeline still produces an output. -/
theorem degenerate_dims_produce_output (img : ImageItem)
    (hl : img.preview.loadable = true)
    (hw : img.preview.width ≤ 0) (hh : img.preview.height ≤ 0) :
    processImage img =
      some { width := ⌊img.preview.width⌋, height := ⌊img.preview.height⌋,
             quality := 0.8, payload := img.preview.payload } := by
  have hm : (0 : ℚ) ≤ MAX_SIZE := by norm_num [MAX_SIZE]
  rw [processImage_of_loadable img hl, resizeDims_small (hw.trans hm) (hh.trans hm)]

/-- Counterexample to claim C7 as stated: the 0x0 input is processed to
a 0x0 output instead of failing. -/
theorem zero_dims_no_failure_cex :
    processImage imgZero =
      some { width := 0, height := 0, quality := 0.8, payload := 6 } := by
  norm_num [processImage, imgZero, zeroSrc, resizeDims, MAX_SIZE]

/-- Witness for `degenerate_dims_produce_output` at the 0x0 item. -/
theorem degenerate_dims_produce_output_witness :
    (imgZero.preview.loadable = true ∧
        imgZero.preview.width ≤ 0 ∧ imgZero.preview.height ≤ 0) ∧
      processImage imgZero =
        some { width := ⌊imgZero.preview.width⌋, height := ⌊imgZero.preview.height⌋,
               quality := 0.8, payload := imgZero.preview.payload } :=
  ⟨⟨by decide, by decide, by decide⟩,
   degenerate_dims_produce_output imgZero (by decide) (by decide) (by decide)⟩

/-- Claim C8, confirmed.  Intake (`handleFileChange`) and a settled
orchestrator run (`handleStartOptimization`) preserve the per-item
invariant that `resultUrl` is set iff `status = done`: intake appends
items that are `idle` without a result, and a settled run commits only
items that are `done` with a result.  `downloadAllAsZip` reads the batch
without writing any item state (it is a pure function of the batch in
source and model alike), so the invariant trivially persists across the
archive step. -/
theorem core_ops_preserve_invariant (images : List ImageItem) (files : List SelectedFile)
    (hinv : ∀ img ∈ images, statusResultInvariant img) :
    (∀ img ∈ handleFileChange images files, statusResultInvariant img) ∧
      (∀ o, handleStartOptimization images = some o →
        ∀ img ∈ o.images, statusResultInvariant img) := by
  constructor
  · intro img hmem
    rw [handleFileChange] at hmem
    rcases List.mem_append.mp hmem with hold | hnew
    · exact hinv img hold
    · obtain ⟨f, -, rfl⟩ := List.mem_map.mp hnew
      simp [statusResultInvariant]
  · intro o ho img hmem
    obtain ⟨hst, hres⟩ := (run_all_done ho).2.2 img hmem
    exact ⟨fun _ => hst, fun _ => hres⟩

/-- Witness for `core_ops_preserve_invariant` on a concrete batch and
file selection. -/
theorem core_ops_preserve_invariant_witness :
    (∀ img ∈ [imgDone, imgA], statusResultInvariant img) ∧
      ((∀ img ∈ handleFileChange [imgDone, imgA] [sampleFile], statusResultInvariant img) ∧
        (∀ o, handleStartOptimization [imgDone, imgA] = some o →
          ∀ img ∈ o.images, statusResultInvariant img)) :=
  ⟨by decide, core_ops_preserve_invariant [imgDone, imgA] [sampleFile] (by decide)⟩

/-- Claim C9, confirmed.  The completion alert fires only in a settled
run (the model's `none` case commits no state and fires nothing), and
whenever the run settles every committed item has reached the terminal
status `done` — so the "batch complete" signal never precedes joint
termination of all items. -/
theorem alert_fires_only_when_all_terminal (images : List ImageItem) (o : RunOutcome)
    (h : handleStartOptimization images = some o) :
    o.alerted = true ∧ o.isProcessing = false ∧
      ∀ img ∈ o.images, img.status = Status.done := by
  obtain ⟨ha, hp, hall⟩ := run_all_done h
  exact ⟨ha, hp, fun img hm => (hall img hm).1⟩

/-- Witness for `alert_fires_only_when_all_terminal` on the singleton
batch `[imgA]`. -/
theorem alert_fires_only_when_all_terminal_witness :
    ∃ o, handleStartOptimization [imgA] = some o ∧
      (o.alerted = true ∧ o.isProcessing = false ∧
        ∀ img ∈ o.images, img.status = Status.done) := by
  obtain ⟨o, ho⟩ := run_some_of_loadable [imgA] (by decide)
  exact ⟨o, ho, alert_fires_only_when_all_terminal [imgA] o ho⟩

/-- Claim C10, confirmed.  Archive entry naming edge cases of the
stripping regex: a name containing no dot is left whole and gets
`.webp` appended, while a name that is a single leading dot followed by
a dot-free, slash-free suffix (such as `.config`) is stripped entirely,
leaving exactly `.webp` as the entry name. -/
theorem entry_naming_edge_cases :
    (∀ name : List Char, (∀ c ∈ name, c ≠ '.') →
        stripExt name ++ webpExt = name ++ webpExt) ∧
      (∀ rest : List Char, rest ≠ [] → (∀ c ∈ rest, c ≠ '.' ∧ c ≠ '/') →
        stripExt ('.' :: rest) ++ webpExt = webpExt) := by
  constructor
  · intro name h
    rw [stripExt_of_no_dot name h]
  · intro rest h1 h2
    rw [stripExt_dotfile rest h1 h2]
    rfl

/-- Witness for `entry_naming_edge_cases` at the concrete names `photo`
and `.config`. -/
theorem entry_naming_edge_cases_witness :
    stripExt ['p', 'h', 'o', 't', 'o'] ++ webpExt = ['p', 'h', 'o', 't', 'o'] ++ webpExt ∧
      stripExt ('.' :: ['c', 'o', 'n', 'f', 'i', 'g']) ++ webpExt = webpExt :=
  ⟨entry_naming_edge_cases.1 ['p', 'h', 'o', 't', 'o'] (by decide),
   entry_naming_edge_cases.2 ['c', 'o', 'n', 'f', 'i', 'g'] (by decide) (by decide)⟩

end HenkanKun
